import Mathlib

/-!
Verification of the "2nm GAA Parallel Worker Engine" (`components/CreativeStudio.tsx`).

The component is shallowly embedded as a state machine.  All mutable refs and
React state cells of the component become fields of `EngineState`; the
asynchronous worker callbacks (`worker.onmessage`, `worker.onerror`) become
transition functions driven by an explicit scheduler event list, and the
caller-visible callbacks (`onProgress`, `onComplete`) are recorded in trace
fields of the state.  The opaque per-task compute function of a worker script
is a parameter (`EngineConfig.compute`), and the possibility that
`worker.postMessage` throws is an oracle `EngineConfig.dispatchFail` keyed by
task id.
-/

namespace CreativeStudio

/-- A work item, `type Task<T> = { id: string; payload: T }` (source lines 18-21). -/
structure Task (T : Type) where
  id : String
  payload : T
deriving DecidableEq

/-- A per-task outcome, `type WorkerResult<R> = { id; result?; error? }`
(source lines 23-27).  `none` models an absent (`undefined`) field. -/
structure WorkerResult (R : Type) where
  id : String
  result : Option R := none
  error : Option String := none
deriving DecidableEq

/-- The value produced by the default worker body (source lines 78-86):
`{ processed: payload, checksum: acc }`. -/
structure Processed (T : Type) where
  processed : T
  checksum : Nat
deriving DecidableEq

/-- The checksum computed by the default worker body's pseudo-work loop
(source lines 81-84): `for (i = 0; i < 50000; i++) acc += (i ^ (i << 1)) % 97`. -/
def defaultChecksum : Nat :=
  (List.range 50000).foldl (fun acc i => acc + (Nat.xor i (i <<< 1)) % 97) 0

/-- The default compute applied to one payload, shared verbatim by the default
worker body (lines 78-86) and the fallback's `runSimulated` (lines 191-198). -/
def runSimulated {T : Type} (payload : T) : Processed T :=
  { processed := payload, checksum := defaultChecksum }

/-- Denotation of the default worker script (lines 71-94): it wraps the
computation in try/catch; the modelled computation is total, so it always
posts `{ id, result }`. -/
def defaultWorkerSem {T : Type} : T → Except String (Processed T) :=
  fun p => Except.ok (runSimulated p)

/-- Denotation of `createWorkerScript` (source lines 96-101): the Blob script
is the caller-supplied `workerFunctionBody` when one is provided (non-null and
non-blank, modelled as `some f` where `f` is the script's per-task
denotation), else the default body. -/
def createWorkerScriptSem {T R : Type} (defaultSem : T → Except String R)
    (workerFunctionBody : Option (T → Except String R)) : T → Except String R :=
  match workerFunctionBody with
  | some f => f
  | none => defaultSem

/-- The per-task computation actually run by the fallback path
`runSequentiallyOnMainThread` (source lines 191-198): it always runs
`runSimulated`, regardless of any caller-supplied worker body, wrapped in
try/catch. -/
def fallbackCompute {T : Type} : T → Except String (Processed T) :=
  fun p => Except.ok (runSimulated p)

/-- One execution unit (`Worker`): whether it is still live (not terminated)
and the task currently dispatched to it. -/
structure WorkerSlot (T : Type) where
  alive : Bool := true
  inFlight : Option (Task T) := none
deriving DecidableEq

/-- A freshly created worker (source line 122). -/
def freshSlot {T : Type} : WorkerSlot T := { alive := true, inFlight := none }

/-- The effect of `worker.terminate()` on a slot. -/
def killSlot {T : Type} : WorkerSlot T → WorkerSlot T :=
  fun _ => { alive := false, inFlight := none }

/-- The component's mutable state.  `running`/`completed`/`results` are the
React state cells, `tasks`/`queue`/`stopped` the refs `tasksRef`/`queueRef`/
`stoppedRef` (lines 48-54).  `slots` holds every worker created so far (the
index is the worker's identity) and `pool` is `workersRef.current` as a list
of indices into `slots`; `spawned` counts `new Worker(...)` invocations.
`progressCalls` and `completeCalls` are observation traces recording each
`onProgress(completed, total)` invocation and each (scheduled) `onComplete`
invocation of the current run. -/
structure EngineState (T R : Type) where
  running : Bool := false
  stopped : Bool := false
  completed : Nat := 0
  results : List (WorkerResult R) := []
  tasks : List (Task T) := []
  queue : List (Task T) := []
  slots : List (WorkerSlot T) := []
  pool : List Nat := []
  spawned : Nat := 0
  progressCalls : List (Nat × Nat) := []
  completeCalls : List (List (WorkerResult R)) := []

/-- The environment of a parallel run: the worker script's per-task
denotation (see `createWorkerScriptSem`) and the dispatch-failure oracle:
`dispatchFail id = true` means `postMessage` throws for the task with that
id. -/
structure EngineConfig (T R : Type) where
  dispatchFail : String → Bool
  compute : T → Except String R

/-- The error text recorded for a failed dispatch, standing in for the
`String(err)` of source line 175. -/
def dispatchErrMsg : String := "postMessage failed"

/-- `stopEngine` (source lines 221-232): sets `stoppedRef`, terminates every
worker (termination errors are swallowed; every live worker is in the pool,
so killing every slot is equivalent), clears `workersRef`, and sets
`running = false`. -/
def stopEngine {T R : Type} (s : EngineState T R) : EngineState T R :=
  { s with stopped := true, slots := s.slots.map killSlot, pool := [],
           running := false }

/-- The body of `assignNextTaskToWorker` (source lines 158-184), structurally
recursive on the queue (the first argument is always the state's queue):
if stopped, return; if the queue is empty, terminate the worker; otherwise
dispatch the head task to slot `i`.  If dispatching throws
(`cfg.dispatchFail`), record an error Result for the task, advance the
completion count, invoke `onProgress`, stop the engine when the count reaches
the total, and recurse on the same slot (lines 173-183). -/
def assignAux {T R : Type} (cfg : EngineConfig T R) (i : Nat) :
    List (Task T) → EngineState T R → EngineState T R
  | [], s =>
    if s.stopped then s
    else { s with slots := s.slots.set i { alive := false, inFlight := none } }
  | t :: rest, s =>
    if s.stopped then s
    else if cfg.dispatchFail t.id then
      let completed' := s.completed + 1
      let s' : EngineState T R :=
        { s with queue := rest,
                 results := s.results ++ [{ id := t.id, error := some dispatchErrMsg }],
                 completed := completed',
                 progressCalls := s.progressCalls ++ [(completed', s.tasks.length)] }
      assignAux cfg i rest (if s.tasks.length ≤ completed' then stopEngine s' else s')
    else
      { s with queue := rest,
               slots := s.slots.set i { alive := true, inFlight := some t } }

/-- `assignNextTaskToWorker(w)` for the worker with identity `i`. -/
def assignNextTaskToWorker {T R : Type} (cfg : EngineConfig T R) (i : Nat)
    (s : EngineState T R) : EngineState T R :=
  assignAux cfg i s.queue s

/-- The message a worker posts for task `t`: `{id, result}` on success,
`{id, error}` on failure, as recorded by `worker.onmessage` (lines 123-126). -/
def messageResult {T R : Type} (cfg : EngineConfig T R) (t : Task T) : WorkerResult R :=
  match cfg.compute t.payload with
  | Except.ok r => { id := t.id, result := some r }
  | Except.error e => { id := t.id, error := some e }

/-- `worker.onmessage` for worker `i` completing task `t` (source lines
123-144): append the Result; if the queue is empty and the result count now
equals the task count, schedule `onComplete` (the `setTimeout` deferral is
recorded as an invocation in `completeCalls`); increment `completed`; invoke
`onProgress(completed, total)`; stop the engine when the count reaches the
total; finally assign the worker its next task. -/
def handleMessage {T R : Type} (cfg : EngineConfig T R) (i : Nat) (t : Task T)
    (s : EngineState T R) : EngineState T R :=
  let results' := s.results ++ [messageResult cfg t]
  let completeCalls' :=
    if s.queue.length = 0 ∧ results'.length = s.tasks.length
    then s.completeCalls ++ [results'] else s.completeCalls
  let completed' := s.completed + 1
  let s1 : EngineState T R :=
    { s with results := results', completeCalls := completeCalls',
             completed := completed',
             progressCalls := s.progressCalls ++ [(completed', s.tasks.length)],
             slots := s.slots.set i { alive := true, inFlight := none } }
  assignNextTaskToWorker cfg i
    (if s.tasks.length ≤ completed' then stopEngine s1 else s1)

/-- `worker.onerror` for worker `i` (source lines 145-150): the error is
logged, `completed` is incremented — with no Result recorded, no `onProgress`
call and no completion check — and the worker is reassigned. -/
def handleError {T R : Type} (cfg : EngineConfig T R) (i : Nat)
    (s : EngineState T R) : EngineState T R :=
  assignNextTaskToWorker cfg i
    { s with completed := s.completed + 1,
             slots := s.slots.set i { alive := true, inFlight := none } }

/-- A scheduler event: delivery of worker `i`'s pending message, a
worker-level fault on worker `i`, or an external `stopEngine()` call. -/
inductive Ev where
  | deliver (i : Nat)
  | fault (i : Nat)
  | stop
deriving DecidableEq

/-- Whether an event is a normal message delivery. -/
def isDeliverEv : Ev → Bool
  | Ev.deliver _ => true
  | _ => false

/-- One scheduler step.  A delivery or fault fires only if worker `i` exists,
is live, and has a task in flight (a terminated worker produces no events). -/
def step {T R : Type} (cfg : EngineConfig T R) (s : EngineState T R) : Ev → EngineState T R
  | Ev.deliver i =>
    match s.slots.get? i with
    | some sl =>
      match sl.inFlight with
      | some t => if sl.alive then handleMessage cfg i t s else s
      | none => s
    | none => s
  | Ev.fault i =>
    match s.slots.get? i with
    | some sl =>
      match sl.inFlight with
      | some _ => if sl.alive then handleError cfg i s else s
      | none => s
    | none => s
  | Ev.stop => stopEngine s

/-- `startEngine` taking the worker branch (source lines 103-156): no-op if
already running; reset `stoppedRef`, queue, results, counter; spawn
`min(concurrency, max(1, queueLength))` workers; kick off the initial
assignment on each. -/
def startEngineParallel {T R : Type} (cfg : EngineConfig T R) (tasks : List (Task T))
    (concurrency : Nat) (s : EngineState T R) : EngineState T R :=
  if s.running then s
  else
    let s0 : EngineState T R :=
      { s with stopped := false, tasks := tasks, queue := tasks,
               results := [], completed := 0, running := true,
               progressCalls := [], completeCalls := [] }
    let n := min concurrency (max 1 tasks.length)
    let base := s0.slots.length
    let s1 : EngineState T R :=
      { s0 with slots := s0.slots ++ List.replicate n freshSlot,
                pool := List.range' base n,
                spawned := s0.spawned + n }
    (List.range' base n).foldl (fun st j => assignNextTaskToWorker cfg j st) s1

/-- A complete parallel run: `startEngine` followed by an arbitrary schedule
of worker completions, worker faults and external stops. -/
def runParallel {T R : Type} (cfg : EngineConfig T R) (tasks : List (Task T))
    (concurrency : Nat) (evs : List Ev) (s : EngineState T R) : EngineState T R :=
  evs.foldl (step cfg) (startEngineParallel cfg tasks concurrency s)

/-- Whether a stop has been requested by the time `done` tasks have executed.
`stopAfter = some k` models `stoppedRef` becoming true once `k` tasks are
done (the flag is checked between tasks, source line 202); `none` means no
stop is ever requested. -/
def stopRequested (stopAfter : Option Nat) (done : Nat) : Bool :=
  match stopAfter with
  | none => false
  | some k => decide (k ≤ done)

/-- The while-loop of `runSequentiallyOnMainThread` (source lines 202-215):
as long as the queue is nonempty and no stop is requested, shift one task,
run `runSimulated` under try/catch, append the Result to `collected`,
increment the counter and invoke `onProgress`.  Returns
`(collected, completed, progressCalls, remaining queue)`. -/
def seqLoop {T : Type} (stopAfter : Option Nat) (total : Nat) :
    List (Task T) → Nat → List (WorkerResult (Processed T)) → List (Nat × Nat) →
    List (WorkerResult (Processed T)) × Nat × List (Nat × Nat) × List (Task T)
  | [], done, collected, progress => (collected, done, progress, [])
  | t :: rest, done, collected, progress =>
    if stopRequested stopAfter done then (collected, done, progress, t :: rest)
    else
      let res : WorkerResult (Processed T) :=
        match fallbackCompute t.payload with
        | Except.ok r => { id := t.id, result := some r }
        | Except.error e => { id := t.id, error := some e }
      seqLoop stopAfter total rest (done + 1) (collected ++ [res])
        (progress ++ [(done + 1, total)])

/-- `runSequentiallyOnMainThread` (source lines 186-219): run the loop, then
`setResults(collected)`, `setRunning(false)` and invoke
`onComplete(collected)` unconditionally. -/
def runSequentiallyOnMainThread {T : Type} (stopAfter : Option Nat)
    (s : EngineState T (Processed T)) : EngineState T (Processed T) :=
  let total := s.queue.length
  match seqLoop stopAfter total s.queue s.completed [] s.progressCalls with
  | (collected, done, progress, remaining) =>
    { s with queue := remaining, completed := done, progressCalls := progress,
             results := collected, running := false,
             completeCalls := s.completeCalls ++ [collected] }

/-- `startEngine` taking the fallback branch (source lines 103-115): no-op if
already running; reset state; delegate the whole run to
`runSequentiallyOnMainThread`.  No worker is created on this path. -/
def startEngineFallback {T : Type} (stopAfter : Option Nat) (tasks : List (Task T))
    (s : EngineState T (Processed T)) : EngineState T (Processed T) :=
  if s.running then s
  else
    runSequentiallyOnMainThread stopAfter
      { s with stopped := false, tasks := tasks, queue := tasks,
               results := [], completed := 0, running := true,
               progressCalls := [], completeCalls := [] }

/-- The Reset button handler (source lines 252-262): `stopEngine()`, then
`queueRef.current = [...tasksRef.current]`, `setResults([])`,
`setCompleted(0)`. -/
def resetEngine {T R : Type} (s : EngineState T R) : EngineState T R :=
  let s1 := stopEngine s
  { s1 with queue := s1.tasks, results := [], completed := 0 }

/-- The successful Result the fallback path produces for a task. -/
def okResult {T : Type} (t : Task T) : WorkerResult (Processed T) :=
  { id := t.id, result := some (runSimulated t.payload) }

/-! ### Concrete test fixtures used by the counterexamples and witnesses -/

/-- Configuration in which every dispatch succeeds and the default worker
script is used. -/
def cfgOk : EngineConfig Nat (Processed Nat) :=
  { dispatchFail := fun _ => false,
    compute := createWorkerScriptSem defaultWorkerSem none }

/-- Configuration in which every `postMessage` throws. -/
def cfgFailAll : EngineConfig Nat (Processed Nat) :=
  { dispatchFail := fun _ => true,
    compute := createWorkerScriptSem defaultWorkerSem none }

/-- Configuration in which dispatching the task with id "a" throws. -/
def cfgFailA : EngineConfig Nat (Processed Nat) :=
  { dispatchFail := fun id => id == "a",
    compute := createWorkerScriptSem defaultWorkerSem none }

def taskT1 : Task Nat := { id := "t1", payload := 1 }
def taskT2 : Task Nat := { id := "t2", payload := 2 }

def tasks4 : List (Task Nat) :=
  [{ id := "t1", payload := 1 }, { id := "t2", payload := 2 },
   { id := "t3", payload := 3 }, { id := "t4", payload := 4 }]

def tasks3 : List (Task Nat) :=
  [{ id := "a", payload := 1 }, { id := "b", payload := 2 },
   { id := "c", payload := 3 }]

/-- A run of one task whose dispatch fails: `startEngine` does all the work
during the initial assignment, so the schedule is empty. -/
def dispatchFailRun : EngineState Nat (Processed Nat) :=
  runParallel cfgFailAll [taskT1] 1 [] {}

/-- A parallel-path run started with an empty task list. -/
def emptyParallelRun : EngineState Nat (Processed Nat) :=
  runParallel cfgOk [] 4 [] {}

/-- One task, one worker, and the worker faults while the task is in flight. -/
def faultRun1 : EngineState Nat (Processed Nat) :=
  runParallel cfgOk [taskT1] 1 [Ev.fault 0] {}

/-- Two tasks, one worker; the worker faults on the first task and then
completes the second normally. -/
def faultRun2 : EngineState Nat (Processed Nat) :=
  runParallel cfgOk [taskT1, taskT2] 1 [Ev.fault 0, Ev.deliver 0] {}

/-- A clean two-task, two-worker run in which both workers deliver. -/
def cleanRun2 : EngineState Nat (Processed Nat) :=
  runParallel cfgOk [taskT1, taskT2] 2 [Ev.deliver 0, Ev.deliver 1] {}

/-- A state mid-run used to exercise `assignNextTaskToWorker` directly:
three tasks total, two still queued, one worker, nothing completed yet. -/
def s7 : EngineState Nat (Processed Nat) :=
  { running := true, tasks := tasks3,
    queue := [{ id := "a", payload := 1 }, { id := "b", payload := 2 }],
    slots := [freshSlot], pool := [0], spawned := 1 }

/-- A state whose task list is nonempty, used against `resetEngine`. -/
def sC9 : EngineState Nat (Processed Nat) :=
  { tasks := [{ id := "t1", payload := 1 }] }

/-- The denotation of a caller-supplied worker body that always posts
`{id, error: "boom"}`. -/
def boomBody : Nat → Except String (Processed Nat) :=
  fun _ => Except.error "boom"

/-- Number of slots with a task currently in flight. -/
def countInFlight {T : Type} (l : List (WorkerSlot T)) : Nat :=
  l.countP (fun sl => sl.inFlight.isSome)

/-- The monotone invariant behind "onComplete fires at most once": an
`onComplete` invocation is recorded only when the result count exactly equals
the task count, and results only ever grow. -/
def MonoInv {T R : Type} (s : EngineState T R) : Prop :=
  s.completeCalls.length ≤ 1 ∧
  (s.completeCalls = [] ∨ s.tasks.length ≤ s.results.length)

/-- The run invariant of a clean parallel run (no dispatch failures, no
worker faults, no external stop): tasks are conserved between the counter,
the in-flight slots and the queue; every completion records a Result; a
stopped engine has nothing in flight; and once the results reach the
(nonempty) task count, `onComplete` has been invoked. -/
def CleanInv {T R : Type} (s : EngineState T R) : Prop :=
  s.completed + countInFlight s.slots + s.queue.length = s.tasks.length ∧
  s.results.length = s.completed ∧
  (s.stopped = true → countInFlight s.slots = 0) ∧
  (s.results.length = s.tasks.length → 0 < s.tasks.length → s.completeCalls ≠ [])

/-! ### Basic lemmas -/

theorem assignAux_stopped {T R : Type} (cfg : EngineConfig T R) (i : Nat)
    (q : List (Task T)) (s : EngineState T R) (h : s.stopped = true) :
    assignAux cfg i q s = s := by
  cases q <;> simp [assignAux, h]

theorem assignNext_stopped {T R : Type} (cfg : EngineConfig T R) (i : Nat)
    (s : EngineState T R) (h : s.stopped = true) :
    assignNextTaskToWorker cfg i s = s :=
  assignAux_stopped cfg i s.queue s h

theorem range_map_shift (total done n : Nat) :
    (List.range (n + 1)).map (fun j => (done + j + 1, total)) =
      (done + 1, total) :: (List.range n).map (fun j => (done + 1 + j + 1, total)) := by
  rw [List.range_succ_eq_map]
  simp only [List.map_cons, List.map_map, Nat.add_zero]
  congr 1
  apply List.map_congr_left
  intro j _
  simp only [Function.comp_apply, Prod.mk.injEq, and_true]
  omega

/-! ### Fallback path: closed forms for the sequential loop -/

theorem seqLoop_none_eq {T : Type} (total : Nat) :
    ∀ (queue : List (Task T)) (done : Nat)
      (collected : List (WorkerResult (Processed T))) (progress : List (Nat × Nat)),
    seqLoop none total queue done collected progress =
      (collected ++ queue.map okResult, done + queue.length,
       progress ++ (List.range queue.length).map (fun j => (done + j + 1, total)),
       ([] : List (Task T))) := by
  intro queue
  induction queue with
  | nil => intro done collected progress; simp [seqLoop]
  | cons t rest ih =>
    intro done collected progress
    rw [seqLoop]
    have hstop : stopRequested none done = false := rfl
    rw [hstop]
    simp only [Bool.false_eq_true, if_false]
    rw [ih]
    simp only [List.map_cons, List.length_cons]
    rw [range_map_shift]
    simp only [Prod.mk.injEq]
    refine ⟨?_, ?_, ?_, trivial⟩
    · simp [fallbackCompute, okResult]
    · omega
    · simp

theorem seqLoop_some_eq {T : Type} (k total : Nat) :
    ∀ (queue : List (Task T)) (done : Nat)
      (collected : List (WorkerResult (Processed T))) (progress : List (Nat × Nat)),
    seqLoop (some k) total queue done collected progress =
      (collected ++ (queue.take (k - done)).map okResult,
       done + min (k - done) queue.length,
       progress ++ (List.range (min (k - done) queue.length)).map
         (fun j => (done + j + 1, total)),
       queue.drop (k - done)) := by
  intro queue
  induction queue with
  | nil =>
    intro done collected progress
    simp [seqLoop]
  | cons t rest ih =>
    intro done collected progress
    rw [seqLoop]
    by_cases hdone : k ≤ done
    · have hstop : stopRequested (some k) done = true := by
        simp [stopRequested, hdone]
      rw [hstop]
      have h0 : k - done = 0 := by omega
      simp [h0]
    · have hstop : stopRequested (some k) done = false := by
        simp [stopRequested]; omega
      rw [hstop]
      simp only [Bool.false_eq_true, if_false]
      rw [ih]
      have hm : k - done = (k - (done + 1)) + 1 := by omega
      rw [hm]
      simp only [List.take_succ_cons, List.drop_succ_cons, List.map_cons,
        List.length_cons, Nat.succ_min_succ]
      rw [range_map_shift]
      simp only [Prod.mk.injEq]
      refine ⟨?_, ?_, ?_, trivial⟩
      · simp [fallbackCompute, okResult]
      · omega
      · simp

/-- Closed form for a full, unstopped fallback run from any non-running
state. -/
theorem startFallback_none_spec {T : Type} (tasks : List (Task T))
    (s : EngineState T (Processed T)) (hrun : s.running = false) :
    (startEngineFallback none tasks s).results = tasks.map okResult ∧
    (startEngineFallback none tasks s).completed = tasks.length ∧
    (startEngineFallback none tasks s).progressCalls =
      (List.range tasks.length).map (fun j => (j + 1, tasks.length)) ∧
    (startEngineFallback none tasks s).completeCalls = [tasks.map okResult] ∧
    (startEngineFallback none tasks s).running = false ∧
    (startEngineFallback none tasks s).queue = [] := by
  unfold startEngineFallback runSequentiallyOnMainThread
  rw [if_neg (by simp [hrun])]
  dsimp only
  rw [seqLoop_none_eq]
  dsimp only
  refine ⟨by simp, by simp, ?_, by simp, rfl, rfl⟩
  simp only [List.nil_append]
  apply List.map_congr_left
  intro j _
  simp

/-- Closed form for a fallback run in which a stop is requested after `k`
tasks have completed, `k ≤` the task count. -/
theorem startFallback_stop_spec {T : Type} (tasks : List (Task T)) (k : Nat)
    (s : EngineState T (Processed T)) (hrun : s.running = false)
    (hk : k ≤ tasks.length) :
    (startEngineFallback (some k) tasks s).results = (tasks.take k).map okResult ∧
    (startEngineFallback (some k) tasks s).completed = k ∧
    (startEngineFallback (some k) tasks s).running = false ∧
    (startEngineFallback (some k) tasks s).completeCalls =
      [(tasks.take k).map okResult] ∧
    (startEngineFallback (some k) tasks s).progressCalls =
      (List.range k).map (fun j => (j + 1, tasks.length)) ∧
    (startEngineFallback (some k) tasks s).queue = tasks.drop k := by
  unfold startEngineFallback runSequentiallyOnMainThread
  rw [if_neg (by simp [hrun])]
  dsimp only
  rw [seqLoop_some_eq]
  dsimp only
  have hmin : min k tasks.length = k := by omega
  refine ⟨by simp, by simp [hmin], rfl, by simp, ?_, by simp⟩
  simp only [Nat.sub_zero, hmin, List.nil_append]
  apply List.map_congr_left
  intro j _
  simp

/-! ### Claim C5: fallback path preserves input order -/

/-- C5: in the fallback (sequential) path each task produces exactly one
Result, in input order; the counter reaches the task count with one
`onProgress` call per task, and `onComplete` is invoked once with the full
ordered sequence. -/
theorem fallback_results_in_input_order {T : Type} (tasks : List (Task T))
    (s : EngineState T (Processed T)) (hrun : s.running = false) :
    (startEngineFallback none tasks s).results = tasks.map okResult ∧
    (startEngineFallback none tasks s).completeCalls = [tasks.map okResult] ∧
    (startEngineFallback none tasks s).completed = tasks.length ∧
    (startEngineFallback none tasks s).progressCalls =
      (List.range tasks.length).map (fun j => (j + 1, tasks.length)) := by
  obtain ⟨h1, h2, h3, h4, h5, h6⟩ := startFallback_none_spec tasks s hrun
  exact ⟨h1, h4, h2, h3⟩

/-- C5 witness: the concrete scenario `[t1,t2,t3,t4]` in fallback mode:
Results in input order, `onProgress` = (1,4),(2,4),(3,4),(4,4), one
`onComplete` with all four. -/
theorem fallback_concrete_scenario_witness :
    (startEngineFallback none tasks4 ({} : EngineState Nat (Processed Nat))).results =
      [okResult { id := "t1", payload := 1 }, okResult { id := "t2", payload := 2 },
       okResult { id := "t3", payload := 3 }, okResult { id := "t4", payload := 4 }] ∧
    (startEngineFallback none tasks4 ({} : EngineState Nat (Processed Nat))).progressCalls =
      [(1, 4), (2, 4), (3, 4), (4, 4)] ∧
    (startEngineFallback none tasks4 ({} : EngineState Nat (Processed Nat))).completeCalls =
      [[okResult { id := "t1", payload := 1 }, okResult { id := "t2", payload := 2 },
        okResult { id := "t3", payload := 3 }, okResult { id := "t4", payload := 4 }]] := by
  have h := fallback_results_in_input_order tasks4 ({} : EngineState Nat (Processed Nat)) rfl
  refine ⟨h.1, ?_, h.2.1⟩
  rw [h.2.2.2]
  rfl

/-! ### Claim C10: cooperative stop in the fallback path -/

/-- C10: if a stop is requested after `k` of the `T` tasks have executed, the
fallback loop exits without running the remaining tasks (they stay queued),
`running` becomes false, and `onComplete` is still invoked exactly once with
exactly the `k` Results collected so far, in input order. -/
theorem fallback_cooperative_stop_partial_results {T : Type} (tasks : List (Task T))
    (k : Nat) (s : EngineState T (Processed T)) (hrun : s.running = false)
    (hk : k ≤ tasks.length) :
    (startEngineFallback (some k) tasks s).results = (tasks.take k).map okResult ∧
    (startEngineFallback (some k) tasks s).completed = k ∧
    (startEngineFallback (some k) tasks s).running = false ∧
    (startEngineFallback (some k) tasks s).completeCalls =
      [(tasks.take k).map okResult] ∧
    (startEngineFallback (some k) tasks s).queue = tasks.drop k :=
  have h := startFallback_stop_spec tasks k s hrun hk
  ⟨h.1, h.2.1, h.2.2.1, h.2.2.2.1, h.2.2.2.2.2⟩

/-- C10 witness: three tasks, stop requested after one: one Result, one
`onComplete`, two tasks left unrun. -/
theorem fallback_stop_witness :
    1 ≤ tasks3.length ∧
    (startEngineFallback (some 1) tasks3 ({} : EngineState Nat (Processed Nat))).results =
      [okResult { id := "a", payload := 1 }] ∧
    (startEngineFallback (some 1) tasks3 ({} : EngineState Nat (Processed Nat))).completed = 1 ∧
    (startEngineFallback (some 1) tasks3 ({} : EngineState Nat (Processed Nat))).running = false ∧
    (startEngineFallback (some 1) tasks3 ({} : EngineState Nat (Processed Nat))).completeCalls =
      [[okResult { id := "a", payload := 1 }]] ∧
    (startEngineFallback (some 1) tasks3 ({} : EngineState Nat (Processed Nat))).queue =
      [{ id := "b", payload := 2 }, { id := "c", payload := 3 }] := by
  have h := fallback_cooperative_stop_partial_results tasks3 1
    ({} : EngineState Nat (Processed Nat)) rfl (by decide)
  exact ⟨by decide, h.1, h.2.1, h.2.2.1, h.2.2.2.1, h.2.2.2.2⟩

/-! ### Claim C8: stop is idempotent and a restart fully resets -/

/-- C8: `stopEngine` is idempotent; after any stop, `running = false`, the
slot set (`workersRef`) is empty and no further task is ever assigned to any
slot; a subsequent start with any task list runs on fully reset state and
produces a full, correct completion. -/
theorem stop_idempotent_and_restart_completes {T : Type}
    (s : EngineState T (Processed T)) (tasks : List (Task T)) :
    stopEngine (stopEngine s) = stopEngine s ∧
    (stopEngine s).running = false ∧
    (stopEngine s).pool = [] ∧
    (stopEngine s).stopped = true ∧
    (∀ (cfg : EngineConfig T (Processed T)) (i : Nat),
      assignNextTaskToWorker cfg i (stopEngine s) = stopEngine s) ∧
    (startEngineFallback none tasks (stopEngine s)).results = tasks.map okResult ∧
    (startEngineFallback none tasks (stopEngine s)).completed = tasks.length ∧
    (startEngineFallback none tasks (stopEngine s)).completeCalls =
      [tasks.map okResult] ∧
    (startEngineFallback none tasks (stopEngine s)).running = false := by
  have hspec := startFallback_none_spec tasks (stopEngine s) rfl
  refine ⟨?_, rfl, rfl, rfl, ?_, hspec.1, hspec.2.1, hspec.2.2.2.1, hspec.2.2.2.2.1⟩
  · simp only [stopEngine, List.map_map]
    rfl
  · intro cfg i
    exact assignNext_stopped cfg i (stopEngine s) rfl

/-! ### Claim C9: what reset actually leaves behind -/

/-- C9 counterexample: `resetEngine` does not leave the queue empty — the
Reset handler performs `queueRef.current = [...tasksRef.current]` (source
line 256), refilling the queue with the full task list. -/
theorem reset_leaves_queue_refilled :
    (resetEngine sC9).queue = [{ id := "t1", payload := 1 }] ∧
    (resetEngine sC9).queue ≠ [] := by
  refine ⟨rfl, ?_⟩
  decide

/-- C9 amended: `resetEngine` stops the engine (running false, pool cleared)
and leaves the results empty and the counter at 0, but refills the queue with
a fresh copy of the task list rather than clearing it. -/
theorem reset_state_after {T R : Type} (s : EngineState T R) :
    (resetEngine s).running = false ∧ (resetEngine s).stopped = true ∧
    (resetEngine s).queue = s.tasks ∧ (resetEngine s).results = [] ∧
    (resetEngine s).completed = 0 ∧ (resetEngine s).pool = [] :=
  ⟨rfl, rfl, rfl, rfl, rfl, rfl⟩

/-! ### Claim C6: fallback vs worker-script computation -/

/-- C6 counterexample: with a caller-supplied `workerFunctionBody`, the
worker script computes the supplied function while the fallback path still
runs the default simulated computation, so the per-task Results differ. -/
theorem custom_body_breaks_fallback_parity :
    createWorkerScriptSem defaultWorkerSem (some boomBody) 0 ≠ fallbackCompute 0 := by
  simp [createWorkerScriptSem, boomBody, fallbackCompute, defaultWorkerSem]

/-- C6 amended: the fallback path computes exactly the default worker
script's per-task function, so the two paths agree whenever no custom
`workerFunctionBody` is supplied; when one is supplied the worker script
computes the supplied function (which the fallback ignores). -/
theorem fallback_matches_default_worker_semantics {T : Type} :
    (∀ p : T, fallbackCompute p = createWorkerScriptSem defaultWorkerSem none p) ∧
    (∀ (R : Type) (d f : T → Except String R) (p : T),
      createWorkerScriptSem d (some f) p = f p) :=
  ⟨fun _ => rfl, fun _ _ _ _ => rfl⟩

/-! ### Claim C2: empty task list -/

/-- C2 counterexample: starting the worker path with `tasks = []` and
concurrency 4 creates `min(4, max(1, 0)) = 1` worker (not zero) and never
invokes `onComplete` (the engine even stays `running`). -/
theorem empty_tasks_parallel_spawns_one_and_never_completes :
    emptyParallelRun.spawned = 1 ∧ emptyParallelRun.completeCalls = [] ∧
    emptyParallelRun.running = true := by
  decide

/-- C2 amended: with an empty task list, the worker path spawns exactly one
worker, terminates it at the first assignment, and never invokes
`onComplete`; only the fallback path completes immediately, invoking
`onComplete([])` with zero workers spawned. -/
theorem empty_tasks_behavior :
    (emptyParallelRun.spawned = 1 ∧ emptyParallelRun.completeCalls = [] ∧
     emptyParallelRun.running = true ∧
     emptyParallelRun.slots = [{ alive := false, inFlight := none }]) ∧
    ((startEngineFallback none [] ({} : EngineState Nat (Processed Nat))).spawned = 0 ∧
     (startEngineFallback none [] ({} : EngineState Nat (Processed Nat))).completeCalls =
       [[]] ∧
     (startEngineFallback none [] ({} : EngineState Nat (Processed Nat))).results = [] ∧
     (startEngineFallback none [] ({} : EngineState Nat (Processed Nat))).running = false) := by
  decide

/-! ### Claim C3: worker-level fault breaks the core invariant -/

/-- C3 (code bug): on a worker-level fault the handler increments
`completedCount` without recording any Result — despite its own comment
"Treat as failed result for currently running task" (source line 147) — so
afterwards `completedCount = 1` while `len(results) = 0`, violating the
claimed invariant `completedCount == len(results)`. -/
theorem worker_fault_breaks_completed_results_invariant :
    faultRun1.completed = 1 ∧ faultRun1.results.length = 0 := by
  decide

/-! ### Claim C4: worker-level fault skips onProgress -/

/-- C4 (code bug): `worker.onerror` advances `completedCount` without firing
`onProgress`, so in a two-task run whose first completion is a fault the only
`onProgress` call ever made reports `(2, 2)` — the count is not observed
increasing by 1, and no call follows the fault completion. -/
theorem worker_fault_skips_onProgress :
    faultRun2.completed = 2 ∧ faultRun2.progressCalls = [(2, 2)] ∧
    faultRun2.results.length = 1 := by
  decide

/-! ### Claim C1 counterexample: a completed run with no onComplete -/

/-- C1 counterexample: a run of one task whose dispatch fails records the
task's (error) Result — all tasks complete, `results.length = tasks.length`
— yet `onComplete` is never invoked, because the dispatch-failure path
(source line 175) appends the Result without the completion check of the
message handler (source line 127). -/
theorem onComplete_missed_on_final_dispatch_failure :
    dispatchFailRun.results.length = 1 ∧ dispatchFailRun.tasks.length = 1 ∧
    dispatchFailRun.completed = 1 ∧ dispatchFailRun.completeCalls = [] := by
  decide

/-! ### Claim C7: dispatch failure is retried on the same slot -/

/-- C7: if dispatching the queue head `t1` to slot `i` throws, an error
Result tagged with `t1.id` is recorded, `completedCount` advances by 1 with
an `onProgress` call, and the assignment recurses on the same slot, which
(when the next dispatch succeeds and the run is not yet complete) receives
the next task `t2` — the slot is retried, not terminated. -/
theorem dispatch_failure_records_error_and_retries_slot {T R : Type}
    (cfg : EngineConfig T R) (i : Nat) (s : EngineState T R)
    (t1 t2 : Task T) (rest : List (Task T))
    (hs : s.stopped = false) (hq : s.queue = t1 :: t2 :: rest)
    (h1 : cfg.dispatchFail t1.id = true) (h2 : cfg.dispatchFail t2.id = false)
    (hlt : s.completed + 1 < s.tasks.length) :
    assignNextTaskToWorker cfg i s =
      { s with queue := rest,
               results := s.results ++ [{ id := t1.id, error := some dispatchErrMsg }],
               completed := s.completed + 1,
               progressCalls := s.progressCalls ++ [(s.completed + 1, s.tasks.length)],
               slots := s.slots.set i { alive := true, inFlight := some t2 } } := by
  have hnle : ¬ (s.tasks.length ≤ s.completed + 1) := by omega
  unfold assignNextTaskToWorker
  rw [hq]
  rw [assignAux]
  rw [if_neg (by simp [hs]), if_pos h1]
  dsimp only
  rw [if_neg hnle]
  rw [assignAux]
  rw [if_neg (by simp [hs]), if_neg (by simp [h2])]

/-- C7 witness: a concrete state with queue `[a, b]`, three tasks total and
nothing completed, where dispatching "a" throws and dispatching "b"
succeeds. -/
theorem dispatch_failure_retry_witness :
    s7.stopped = false ∧ s7.completed + 1 < s7.tasks.length ∧
    (assignNextTaskToWorker cfgFailA 0 s7).results =
      [{ id := "a", result := none, error := some dispatchErrMsg }] ∧
    (assignNextTaskToWorker cfgFailA 0 s7).completed = 1 ∧
    (assignNextTaskToWorker cfgFailA 0 s7).progressCalls = [(1, 3)] ∧
    (assignNextTaskToWorker cfgFailA 0 s7).queue = [] ∧
    (assignNextTaskToWorker cfgFailA 0 s7).slots =
      [{ alive := true, inFlight := some { id := "b", payload := 2 } }] := by
  have h := dispatch_failure_records_error_and_retries_slot cfgFailA 0 s7
    { id := "a", payload := 1 } { id := "b", payload := 2 } []
    rfl rfl (by decide) (by decide) (by decide)
  rw [h]
  exact ⟨rfl, by decide, rfl, rfl, rfl, rfl, rfl⟩

/-! ### List helper lemmas -/

theorem getq_lt {α : Type} : ∀ (l : List α) (i : Nat) (a : α),
    l.get? i = some a → i < l.length := by
  intro l
  induction l with
  | nil => intro i a h; simp [List.get?] at h
  | cons x xs ih =>
    intro i a h
    cases i with
    | zero => simp
    | succ j =>
      simp only [List.get?] at h
      have := ih j a h
      simp only [List.length_cons]
      omega

theorem getq_mem {α : Type} : ∀ (l : List α) (i : Nat) (a : α),
    l.get? i = some a → a ∈ l := by
  intro l
  induction l with
  | nil => intro i a h; simp [List.get?] at h
  | cons x xs ih =>
    intro i a h
    cases i with
    | zero =>
      simp only [List.get?, Option.some.injEq] at h
      exact h ▸ List.mem_cons_self x xs
    | succ j =>
      simp only [List.get?] at h
      exact List.mem_cons_of_mem x (ih j a h)

theorem getq_set_self {α : Type} : ∀ (l : List α) (i : Nat) (a : α),
    i < l.length → (l.set i a).get? i = some a := by
  intro l
  induction l with
  | nil => intro i a h; simp at h
  | cons x xs ih =>
    intro i a h
    cases i with
    | zero => rfl
    | succ j =>
      simp only [List.set_cons_succ, List.get?]
      exact ih j a (by simp at h; omega)

theorem getq_set_ne {α : Type} : ∀ (l : List α) (i j : Nat) (a : α),
    i ≠ j → (l.set i a).get? j = l.get? j := by
  intro l
  induction l with
  | nil => intro i j a _; simp
  | cons x xs ih =>
    intro i j a hne
    cases i with
    | zero =>
      cases j with
      | zero => exact absurd rfl hne
      | succ j' => rfl
    | succ i' =>
      cases j with
      | zero => rfl
      | succ j' =>
        simp only [List.set_cons_succ, List.get?]
        exact ih i' j' a (by omega)

theorem countP_set_eq {α : Type} (p : α → Bool) : ∀ (l : List α) (i : Nat) (a b : α),
    l.get? i = some b →
    (l.set i a).countP p + (if p b then 1 else 0) =
      l.countP p + (if p a then 1 else 0) := by
  intro l
  induction l with
  | nil => intro i a b h; simp [List.get?] at h
  | cons x xs ih =>
    intro i a b h
    cases i with
    | zero =>
      simp only [List.get?, Option.some.injEq] at h
      rw [← h]
      simp only [List.set_cons_zero, List.countP_cons]
      by_cases hx : p x <;> by_cases ha : p a <;> simp [hx, ha]
    | succ j =>
      simp only [List.get?] at h
      simp only [List.set_cons_succ, List.countP_cons]
      have := ih j a b h
      by_cases hx : p x <;> simp [hx] <;> omega

theorem countInFlight_killAll {T : Type} (l : List (WorkerSlot T)) :
    countInFlight (l.map killSlot) = 0 := by
  induction l with
  | nil => rfl
  | cons x xs ih =>
    simp only [List.map_cons, countInFlight, List.countP_cons] at *
    simp [killSlot, ih]

theorem countInFlight_replicate_fresh {T : Type} (n : Nat) :
    countInFlight (List.replicate n (freshSlot : WorkerSlot T)) = 0 := by
  induction n with
  | zero => rfl
  | succ m ih =>
    simp only [List.replicate_succ, countInFlight, List.countP_cons] at *
    simp [freshSlot, ih]

theorem countInFlight_append {T : Type} (l l' : List (WorkerSlot T)) :
    countInFlight (l ++ l') = countInFlight l + countInFlight l' := by
  simp [countInFlight, List.countP_append]

theorem countInFlight_eq_zero_of {T : Type} (l : List (WorkerSlot T))
    (h : ∀ sl ∈ l, sl.inFlight = none) : countInFlight l = 0 := by
  induction l with
  | nil => rfl
  | cons x xs ih =>
    have hx : x.inFlight = none := h x (List.mem_cons_self x xs)
    have hxs := ih (fun sl hsl => h sl (List.mem_cons_of_mem x hsl))
    simp only [countInFlight, List.countP_cons] at hxs ⊢
    simp [hx, hxs]

theorem countInFlight_pos_of {T : Type} (l : List (WorkerSlot T))
    (sl : WorkerSlot T) (t : Task T) (hmem : sl ∈ l) (h : sl.inFlight = some t) :
    0 < countInFlight l := by
  induction l with
  | nil => simp at hmem
  | cons x xs ih =>
    simp only [countInFlight, List.countP_cons]
    rcases List.mem_cons.mp hmem with hx | hxs
    · subst hx; simp [h]
    · have := ih hxs
      simp only [countInFlight] at this
      omega

/-! ### MonoInv: onComplete fires at most once -/

theorem monoInv_stopEngine {T R : Type} (s : EngineState T R) (h : MonoInv s) :
    MonoInv (stopEngine s) := h

theorem monoInv_assignAux {T R : Type} (cfg : EngineConfig T R) (i : Nat) :
    ∀ (q : List (Task T)) (s : EngineState T R), MonoInv s → MonoInv (assignAux cfg i q s) := by
  intro q
  induction q with
  | nil =>
    intro s h
    rw [assignAux]
    split
    · exact h
    · exact h
  | cons t rest ih =>
    intro s h
    rw [assignAux]
    split
    · exact h
    · split
      · apply ih
        have h' : MonoInv
            ({ s with
                queue := rest,
                results := s.results ++ [{ id := t.id, error := some dispatchErrMsg }],
                completed := s.completed + 1,
                progressCalls := s.progressCalls ++ [(s.completed + 1, s.tasks.length)] }
              : EngineState T R) := by
          obtain ⟨ha, hb⟩ := h
          refine ⟨ha, ?_⟩
          rcases hb with hb | hb
          · exact Or.inl hb
          · right
            dsimp only
            simp only [List.length_append, List.length_cons, List.length_nil]
            omega
        split
        · exact monoInv_stopEngine _ h'
        · exact h'
      · exact h

theorem monoInv_handleMessage {T R : Type} (cfg : EngineConfig T R) (i : Nat)
    (t : Task T) (s : EngineState T R) (h : MonoInv s) :
    MonoInv (handleMessage cfg i t s) := by
  unfold handleMessage assignNextTaskToWorker
  dsimp only
  have h1 : MonoInv
      ({ s with
          results := s.results ++ [messageResult cfg t],
          completeCalls :=
            if s.queue.length = 0 ∧
                (s.results ++ [messageResult cfg t]).length = s.tasks.length
            then s.completeCalls ++ [s.results ++ [messageResult cfg t]]
            else s.completeCalls,
          completed := s.completed + 1,
          progressCalls := s.progressCalls ++ [(s.completed + 1, s.tasks.length)],
          slots := s.slots.set i { alive := true, inFlight := none } }
        : EngineState T R) := by
    obtain ⟨ha, hb⟩ := h
    have hlen : (s.results ++ [messageResult cfg t]).length = s.results.length + 1 := by
      simp
    by_cases hg : s.queue.length = 0 ∧
        (s.results ++ [messageResult cfg t]).length = s.tasks.length
    · constructor
      · dsimp only
        rw [if_pos hg]
        have hcc : s.completeCalls = [] := by
          rcases hb with hb | hb
          · exact hb
          · exfalso
            have h2 := hg.2
            rw [hlen] at h2
            omega
        simp [hcc]
      · right
        dsimp only
        rw [hlen]
        have h2 := hg.2
        rw [hlen] at h2
        omega
    · constructor
      · dsimp only
        rw [if_neg hg]
        exact ha
      · rcases hb with hb | hb
        · left
          dsimp only
          rw [if_neg hg]
          exact hb
        · right
          dsimp only
          rw [hlen]
          omega
  split
  · exact monoInv_assignAux cfg i _ _ (monoInv_stopEngine _ h1)
  · exact monoInv_assignAux cfg i _ _ h1

theorem monoInv_handleError {T R : Type} (cfg : EngineConfig T R) (i : Nat)
    (s : EngineState T R) (h : MonoInv s) :
    MonoInv (handleError cfg i s) := by
  unfold handleError assignNextTaskToWorker
  exact monoInv_assignAux cfg i _ _ h

theorem monoInv_step {T R : Type} (cfg : EngineConfig T R) (s : EngineState T R)
    (ev : Ev) (h : MonoInv s) : MonoInv (step cfg s ev) := by
  cases ev with
  | deliver i =>
    simp only [step]
    split
    · split
      · split
        · exact monoInv_handleMessage cfg i _ s h
        · exact h
      · exact h
    · exact h
  | fault i =>
    simp only [step]
    split
    · split
      · split
        · exact monoInv_handleError cfg i s h
        · exact h
      · exact h
    · exact h
  | stop => exact monoInv_stopEngine s h

theorem monoInv_foldl_assign {T R : Type} (cfg : EngineConfig T R) :
    ∀ (idxs : List Nat) (st : EngineState T R), MonoInv st →
    MonoInv (idxs.foldl (fun acc j => assignNextTaskToWorker cfg j acc) st) := by
  intro idxs
  induction idxs with
  | nil => intro st h; exact h
  | cons j rest ih =>
    intro st h
    simp only [List.foldl_cons]
    exact ih _ (monoInv_assignAux cfg j st.queue st h)

theorem monoInv_foldl_step {T R : Type} (cfg : EngineConfig T R) :
    ∀ (evs : List Ev) (st : EngineState T R), MonoInv st →
    MonoInv (evs.foldl (step cfg) st) := by
  intro evs
  induction evs with
  | nil => intro st h; exact h
  | cons e rest ih =>
    intro st h
    simp only [List.foldl_cons]
    exact ih _ (monoInv_step cfg st e h)

theorem assignAux_stopEngine {T R : Type} (cfg : EngineConfig T R) (i : Nat)
    (q : List (Task T)) (s : EngineState T R) :
    assignAux cfg i q (stopEngine s) = stopEngine s :=
  assignAux_stopped cfg i q (stopEngine s) rfl

/-! ### Preservation of the task list -/

theorem assignAux_tasks {T R : Type} (cfg : EngineConfig T R) (i : Nat) :
    ∀ (q : List (Task T)) (s : EngineState T R), (assignAux cfg i q s).tasks = s.tasks := by
  intro q
  induction q with
  | nil => intro s; rw [assignAux]; split <;> rfl
  | cons t rest ih =>
    intro s
    rw [assignAux]
    split
    · rfl
    · split
      · rw [ih]
        split <;> rfl
      · rfl

theorem handleMessage_tasks {T R : Type} (cfg : EngineConfig T R) (i : Nat)
    (t : Task T) (s : EngineState T R) :
    (handleMessage cfg i t s).tasks = s.tasks := by
  unfold handleMessage assignNextTaskToWorker
  dsimp only
  rw [assignAux_tasks]
  split <;> rfl

theorem handleError_tasks {T R : Type} (cfg : EngineConfig T R) (i : Nat)
    (s : EngineState T R) :
    (handleError cfg i s).tasks = s.tasks := by
  unfold handleError assignNextTaskToWorker
  rw [assignAux_tasks]

theorem step_tasks {T R : Type} (cfg : EngineConfig T R) (s : EngineState T R)
    (ev : Ev) : (step cfg s ev).tasks = s.tasks := by
  cases ev with
  | deliver i =>
    simp only [step]
    split
    · split
      · split
        · exact handleMessage_tasks cfg i _ s
        · rfl
      · rfl
    · rfl
  | fault i =>
    simp only [step]
    split
    · split
      · split
        · exact handleError_tasks cfg i s
        · rfl
      · rfl
    · rfl
  | stop => rfl

theorem foldl_step_tasks {T R : Type} (cfg : EngineConfig T R) :
    ∀ (evs : List Ev) (st : EngineState T R),
    (evs.foldl (step cfg) st).tasks = st.tasks := by
  intro evs
  induction evs with
  | nil => intro st; rfl
  | cons e rest ih =>
    intro st
    simp only [List.foldl_cons]
    rw [ih, step_tasks]

theorem foldl_assign_tasks {T R : Type} (cfg : EngineConfig T R) :
    ∀ (idxs : List Nat) (st : EngineState T R),
    (idxs.foldl (fun acc j => assignNextTaskToWorker cfg j acc) st).tasks = st.tasks := by
  intro idxs
  induction idxs with
  | nil => intro st; rfl
  | cons j rest ih =>
    intro st
    simp only [List.foldl_cons]
    rw [ih]
    exact assignAux_tasks cfg j st.queue st

theorem startParallel_tasks {T R : Type} (cfg : EngineConfig T R)
    (tasks : List (Task T)) (conc : Nat) (s : EngineState T R)
    (hrun : s.running = false) :
    (startEngineParallel cfg tasks conc s).tasks = tasks := by
  unfold startEngineParallel
  rw [if_neg (by simp [hrun])]
  dsimp only
  rw [foldl_assign_tasks]

theorem runParallel_tasks {T R : Type} (cfg : EngineConfig T R)
    (tasks : List (Task T)) (conc : Nat) (evs : List Ev) (s : EngineState T R)
    (hrun : s.running = false) :
    (runParallel cfg tasks conc evs s).tasks = tasks := by
  unfold runParallel
  rw [foldl_step_tasks, startParallel_tasks cfg tasks conc s hrun]

/-! ### CleanInv: conservation in clean runs -/

theorem cleanInv_assignAux {T R : Type} (cfg : EngineConfig T R)
    (hfail : ∀ id, cfg.dispatchFail id = false) (i : Nat)
    (s : EngineState T R) (sl : WorkerSlot T)
    (hget : s.slots.get? i = some sl) (hsl : sl.inFlight = none)
    (hs : s.stopped = false) (h : CleanInv s) :
    CleanInv (assignAux cfg i s.queue s) ∧
    (assignAux cfg i s.queue s).stopped = false ∧
    (∀ j, j ≠ i → (assignAux cfg i s.queue s).slots.get? j = s.slots.get? j) := by
  obtain ⟨hc1, hc2, hc3, hc4⟩ := h
  cases hq : s.queue with
  | nil =>
    rw [assignAux, if_neg (by simp [hs])]
    have hcnt : countInFlight (s.slots.set i { alive := false, inFlight := none }) =
        countInFlight s.slots := by
      have hc := countP_set_eq (fun sl => sl.inFlight.isSome) s.slots i
        { alive := false, inFlight := none } sl hget
      simp only [hsl, Option.isSome_none, Bool.false_eq_true, if_false,
        Nat.add_zero] at hc
      simpa [countInFlight] using hc
    refine ⟨⟨?_, hc2, ?_, hc4⟩, hs, ?_⟩
    · dsimp only
      rw [hcnt]
      exact hc1
    · intro hstop
      simp only at hstop
      rw [hs] at hstop
      cases hstop
    · intro j hj
      dsimp only
      exact getq_set_ne s.slots i j _ (Ne.symm hj)
  | cons t rest =>
    rw [assignAux, if_neg (by simp [hs]), if_neg (by simp [hfail t.id])]
    have hcnt : countInFlight (s.slots.set i { alive := true, inFlight := some t }) =
        countInFlight s.slots + 1 := by
      have hc := countP_set_eq (fun sl => sl.inFlight.isSome) s.slots i
        { alive := true, inFlight := some t } sl hget
      simp only [hsl, Option.isSome_none, Option.isSome_some, Bool.false_eq_true,
        if_false, if_true, Nat.add_zero] at hc
      simpa [countInFlight] using hc
    rw [hq] at hc1
    refine ⟨⟨?_, hc2, ?_, hc4⟩, hs, ?_⟩
    · dsimp only
      rw [hcnt]
      simp only [List.length_cons] at hc1
      omega
    · intro hstop
      simp only at hstop
      rw [hs] at hstop
      cases hstop
    · intro j hj
      dsimp only
      exact getq_set_ne s.slots i j _ (Ne.symm hj)

theorem cleanInv_handleMessage {T R : Type} (cfg : EngineConfig T R)
    (hfail : ∀ id, cfg.dispatchFail id = false) (i : Nat) (t : Task T)
    (s : EngineState T R) (sl : WorkerSlot T)
    (hget : s.slots.get? i = some sl) (hin : sl.inFlight = some t)
    (h : CleanInv s) :
    CleanInv (handleMessage cfg i t s) := by
  obtain ⟨hc1, hc2, hc3, hc4⟩ := h
  have hs : s.stopped = false := by
    by_contra hs'
    simp only [Bool.not_eq_false] at hs'
    have h0 := hc3 hs'
    have hpos := countInFlight_pos_of s.slots sl t (getq_mem _ _ _ hget) hin
    omega
  have hi : i < s.slots.length := getq_lt _ _ _ hget
  have hcnt : countInFlight (s.slots.set i { alive := true, inFlight := none }) + 1 =
      countInFlight s.slots := by
    have hc := countP_set_eq (fun sl => sl.inFlight.isSome) s.slots i
      { alive := true, inFlight := none } sl hget
    simp only [hin, Option.isSome_none, Option.isSome_some, Bool.false_eq_true,
      if_false, if_true, Nat.add_zero] at hc
    simpa [countInFlight] using hc
  have hrlen : (s.results ++ [messageResult cfg t]).length = s.results.length + 1 := by
    simp
  unfold handleMessage assignNextTaskToWorker
  dsimp only
  by_cases hA : s.tasks.length ≤ s.completed + 1
  · rw [if_pos hA]
    have hq0 : s.queue.length = 0 := by omega
    have htot : s.completed + 1 = s.tasks.length := by omega
    have hg : s.queue.length = 0 ∧
        (s.results ++ [messageResult cfg t]).length = s.tasks.length := by
      refine ⟨hq0, ?_⟩
      rw [hrlen]
      omega
    rw [if_pos hg]
    rw [assignAux_stopEngine]
    refine ⟨?_, ?_, ?_, ?_⟩
    · simp only [stopEngine]
      rw [countInFlight_killAll]
      omega
    · simp only [stopEngine]
      rw [hrlen]
      omega
    · intro _
      simp only [stopEngine]
      exact countInFlight_killAll _
    · intro _ _
      simp only [stopEngine]
      simp
  · rw [if_neg hA]
    have hg : ¬ (s.queue.length = 0 ∧
        (s.results ++ [messageResult cfg t]).length = s.tasks.length) := by
      intro hg'
      have h2 := hg'.2
      rw [hrlen] at h2
      omega
    rw [if_neg hg]
    have hget' : (s.slots.set i { alive := true, inFlight := none }).get? i =
        some { alive := true, inFlight := none } :=
      getq_set_self s.slots i _ hi
    refine (cleanInv_assignAux cfg hfail i
        ({ s with
            results := s.results ++ [messageResult cfg t],
            completeCalls := s.completeCalls,
            completed := s.completed + 1,
            progressCalls := s.progressCalls ++ [(s.completed + 1, s.tasks.length)],
            slots := s.slots.set i { alive := true, inFlight := none } }
          : EngineState T R)
        { alive := true, inFlight := none } hget' rfl hs ?_).1
    refine ⟨?_, ?_, ?_, ?_⟩
    · dsimp only
      omega
    · dsimp only
      rw [hrlen]
      omega
    · intro hstop
      simp only at hstop
      rw [hs] at hstop
      cases hstop
    · intro h1 _
      exfalso
      simp only at h1
      rw [hrlen] at h1
      omega

theorem cleanInv_step {T R : Type} (cfg : EngineConfig T R)
    (hfail : ∀ id, cfg.dispatchFail id = false) (s : EngineState T R)
    (h : CleanInv s) (i : Nat) :
    CleanInv (step cfg s (Ev.deliver i)) := by
  simp only [step]
  split
  next sl hget =>
    split
    next t hin =>
      split
      · exact cleanInv_handleMessage cfg hfail i t s sl hget hin h
      · exact h
    next hin => exact h
  next hget => exact h

theorem cleanInv_foldl_steps {T R : Type} (cfg : EngineConfig T R)
    (hfail : ∀ id, cfg.dispatchFail id = false) :
    ∀ (evs : List Ev), (∀ e ∈ evs, isDeliverEv e = true) →
    ∀ (st : EngineState T R), CleanInv st →
    CleanInv (evs.foldl (step cfg) st) := by
  intro evs
  induction evs with
  | nil => intro _ st h; exact h
  | cons e rest ih =>
    intro hdel st h
    simp only [List.foldl_cons]
    have he := hdel e (List.mem_cons_self e rest)
    cases e with
    | deliver i =>
      exact ih (fun e' he' => hdel e' (List.mem_cons_of_mem _ he')) _
        (cleanInv_step cfg hfail st h i)
    | fault i => simp [isDeliverEv] at he
    | stop => simp [isDeliverEv] at he

theorem cleanInv_foldl_assign {T R : Type} (cfg : EngineConfig T R)
    (hfail : ∀ id, cfg.dispatchFail id = false) :
    ∀ (idxs : List Nat) (st : EngineState T R),
    CleanInv st → st.stopped = false →
    (∀ j ∈ idxs, st.slots.get? j = some freshSlot) → idxs.Nodup →
    CleanInv (idxs.foldl (fun acc j => assignNextTaskToWorker cfg j acc) st) ∧
    (idxs.foldl (fun acc j => assignNextTaskToWorker cfg j acc) st).stopped = false := by
  intro idxs
  induction idxs with
  | nil => intro st h hs _ _; exact ⟨h, hs⟩
  | cons j rest ih =>
    intro st h hs hfresh hnd
    simp only [List.foldl_cons]
    have hj := hfresh j (List.mem_cons_self j rest)
    have ha := cleanInv_assignAux cfg hfail j st freshSlot hj rfl hs h
    have hj_not : j ∉ rest := (List.nodup_cons.mp hnd).1
    apply ih
    · exact ha.1
    · exact ha.2.1
    · intro j' hj'
      have hne : j' ≠ j := fun hEq => hj_not (hEq ▸ hj')
      unfold assignNextTaskToWorker
      rw [ha.2.2 j' hne]
      exact hfresh j' (List.mem_cons_of_mem j hj')
    · exact (List.nodup_cons.mp hnd).2

theorem getq_replicate {α : Type} (a : α) : ∀ (n j : Nat), j < n →
    (List.replicate n a).get? j = some a := by
  intro n
  induction n with
  | zero => intro j h; omega
  | succ m ih =>
    intro j h
    cases j with
    | zero => rfl
    | succ j' =>
      simp only [List.replicate_succ, List.get?]
      exact ih j' (by omega)

theorem getq_append_replicate {α : Type} (a : α) : ∀ (l : List α) (n j : Nat),
    l.length ≤ j → j < l.length + n → (l ++ List.replicate n a).get? j = some a := by
  intro l
  induction l with
  | nil =>
    intro n j h1 h2
    simp only [List.nil_append, List.length_nil, Nat.zero_add] at *
    exact getq_replicate a n j h2
  | cons x xs ih =>
    intro n j h1 h2
    cases j with
    | zero => simp at h1
    | succ j' =>
      simp only [List.cons_append, List.get?]
      refine ih n j' ?_ ?_
      · simp only [List.length_cons] at h1
        omega
      · simp only [List.length_cons] at h2
        omega

theorem cleanInv_startParallel {T R : Type} (cfg : EngineConfig T R)
    (hfail : ∀ id, cfg.dispatchFail id = false) (tasks : List (Task T))
    (conc : Nat) (s : EngineState T R) (hrun : s.running = false)
    (hslots : ∀ sl ∈ s.slots, sl.inFlight = none) :
    CleanInv (startEngineParallel cfg tasks conc s) := by
  unfold startEngineParallel
  rw [if_neg (by simp [hrun])]
  dsimp only
  have hcnt : countInFlight
      (s.slots ++ List.replicate (min conc (max 1 tasks.length)) freshSlot) = 0 := by
    rw [countInFlight_append, countInFlight_eq_zero_of s.slots hslots,
      countInFlight_replicate_fresh]
  refine (cleanInv_foldl_assign cfg hfail _ _ ?_ rfl ?_ ?_).1
  · refine ⟨?_, rfl, ?_, ?_⟩
    · dsimp only
      rw [hcnt]
      omega
    · intro hstop
      simp only at hstop
      cases hstop
    · intro h1 h2
      exfalso
      dsimp only at h1 h2
      simp only [List.length_nil] at h1
      omega
  · intro j hj
    obtain ⟨hj1, hj2⟩ := List.mem_range'_1.mp hj
    dsimp only
    exact getq_append_replicate freshSlot s.slots _ j hj1 hj2
  · exact List.nodup_range' _ _

theorem monoInv_runParallel {T R : Type} (cfg : EngineConfig T R)
    (tasks : List (Task T)) (conc : Nat) (evs : List Ev) (s : EngineState T R)
    (hrun : s.running = false) :
    MonoInv (runParallel cfg tasks conc evs s) := by
  unfold runParallel
  apply monoInv_foldl_step
  unfold startEngineParallel
  rw [if_neg (by simp [hrun])]
  dsimp only
  apply monoInv_foldl_assign
  exact ⟨by simp, Or.inl rfl⟩

/-! ### Claim C1: onComplete at most once, exactly once on clean completion -/

/-- C1 (amended): over every schedule of deliveries, worker faults and
external stops, `onComplete` is invoked at most once per run; and on a run
with no dispatch failures and only normal message deliveries, started from a
non-running state with no stale in-flight slot, in which all tasks complete
(the collected Results reach the nonempty task count), it is invoked exactly
once — after the final Result is recorded, when the number of collected
Results equals the task count. -/
theorem onComplete_at_most_once_and_once_on_clean_completion {T R : Type}
    (cfg : EngineConfig T R) (tasks : List (Task T)) (conc : Nat) (evs : List Ev)
    (s : EngineState T R) (hrun : s.running = false) :
    (runParallel cfg tasks conc evs s).completeCalls.length ≤ 1 ∧
    ((∀ id, cfg.dispatchFail id = false) →
     (∀ e ∈ evs, isDeliverEv e = true) →
     (∀ sl ∈ s.slots, sl.inFlight = none) →
     (runParallel cfg tasks conc evs s).results.length = tasks.length →
     0 < tasks.length →
     (runParallel cfg tasks conc evs s).completeCalls.length = 1) := by
  have hmono := monoInv_runParallel cfg tasks conc evs s hrun
  refine ⟨hmono.1, ?_⟩
  intro hfail hdel hslots hres hpos
  have hclean : CleanInv (runParallel cfg tasks conc evs s) := by
    unfold runParallel
    exact cleanInv_foldl_steps cfg hfail evs hdel _
      (cleanInv_startParallel cfg hfail tasks conc s hrun hslots)
  have htasks := runParallel_tasks cfg tasks conc evs s hrun
  have hne : (runParallel cfg tasks conc evs s).completeCalls ≠ [] := by
    apply hclean.2.2.2
    · rw [htasks]
      exact hres
    · rw [htasks]
      exact hpos
  have hposlen : 0 < (runParallel cfg tasks conc evs s).completeCalls.length :=
    List.length_pos.mpr hne
  have hle : (runParallel cfg tasks conc evs s).completeCalls.length ≤ 1 := hmono.1
  omega

/-- C1 witness: a clean two-task, two-worker run in which both workers
deliver normally invokes `onComplete` exactly once. -/
theorem onComplete_once_witness : cleanRun2.completeCalls.length = 1 := by
  have h := onComplete_at_most_once_and_once_on_clean_completion cfgOk
    [taskT1, taskT2] 2 [Ev.deliver 0, Ev.deliver 1]
    ({} : EngineState Nat (Processed Nat)) rfl
  exact h.2 (fun _ => rfl) (by decide) (by intro sl hsl; cases hsl) rfl (by decide)

end CreativeStudio
